import Mathlib

/-!
Verification of the Binance futures trading bot (`main.py`).

The development shallowly embeds the bot logic: exact decimal values
(Python `Decimal`) are modelled as rational numbers, decimal strings by an
explicit renderer and parser over `List Char`, and the stateful pieces
(the per-symbol trading-rules cache, the exchange client) by explicit
state passing.  The exchange client is a parameter: the instrument list,
the account snapshot and the order endpoint are inputs to the functions
that consume them, and each operation reports how many network requests
it issued.
-/

/-! ## Decimal scalars

Python `Decimal` arithmetic on the values that occur here (quantities,
step sizes, minimum quantities, balances) is exact, so it is modelled by
`ℚ`.  Two operations need care: `//` on `Decimal` rounds the quotient
toward zero (not toward minus infinity), and fixed-point formatting
`f"{d:.pf}"` rounds to `p` fractional digits with ROUND_HALF_EVEN, the
default rounding of the decimal context. -/

/-- Quotient rounded toward zero, the rounding used by `Decimal.__floordiv__`. -/
def ratTrunc (x : ℚ) : ℤ :=
  if 0 ≤ x then ⌊x⌋ else ⌈x⌉

/-- Nearest integer, ties going to the even neighbour: the ROUND_HALF_EVEN
rule that `Decimal.__format__` applies to the digits it drops. -/
def roundHalfEven (x : ℚ) : ℤ :=
  let f := ⌊x⌋
  if x - f < 1/2 then f
  else if 1/2 < x - f then f + 1
  else if f % 2 = 0 then f else f + 1

/-! ## Decimal strings -/

/-- Numeric value of a digit character. -/
def dval (c : Char) : ℕ := c.toNat - 48

/-- Value of a digit string, most significant digit first. -/
def charsVal (l : List Char) : ℕ := l.foldl (fun a c => a * 10 + dval c) 0

/-- Decimal digits of `n`, most significant first, no leading zeros
(empty for `n = 0`).  The first argument is recursion fuel. -/
def digitsRec : ℕ → ℕ → List Char
  | 0, _ => []
  | _ + 1, 0 => []
  | fuel + 1, n + 1 => digitsRec fuel ((n + 1) / 10) ++ [Nat.digitChar ((n + 1) % 10)]

/-- Decimal rendering of a natural number, as Python prints it. -/
def renderNat (n : ℕ) : List Char :=
  if n = 0 then ['0'] else digitsRec n n

/-- The last `w` decimal digits of `n`, most significant first, padded
with leading zeros: the fractional block of a fixed-point rendering. -/
def fixedDigits (n : ℕ) : ℕ → List Char
  | 0 => []
  | w + 1 => fixedDigits (n / 10) w ++ [Nat.digitChar (n % 10)]

/-- Fixed-point rendering of the scaled integer `n` with `p` fractional
digits: the string `f"{d:.pf}"` where `n = d * 10 ^ p`.  With `p = 0`
Python prints no decimal point.  (A negative `d` that rounds to zero
keeps its sign in Python, `"-0.000"`; this rendering drops it, which does
not change the parsed value.) -/
def renderFixed (n : ℤ) (p : ℕ) : String :=
  let sign : List Char := if n < 0 then ['-'] else []
  let m := n.natAbs
  if p = 0 then ⟨sign ++ renderNat m⟩
  else ⟨sign ++ renderNat (m / 10 ^ p) ++ '.' :: fixedDigits (m % 10 ^ p) p⟩

/-- The string `f"{d:.pf}"` for an exact decimal `d`: scale by `10 ^ p`,
round half-even to an integer, render with `p` fractional digits. -/
def formatFixed (d : ℚ) (p : ℕ) : String :=
  renderFixed (roundHalfEven (d * 10 ^ p)) p

/-- Parse an unsigned decimal numeral `digits` or `digits.digits`
(either side of the point may be empty, not both). -/
def parseUnsigned (l : List Char) : Option ℚ :=
  let intPart := l.takeWhile (fun c => c != '.')
  match l.dropWhile (fun c => c != '.') with
  | [] =>
    if intPart ≠ [] ∧ intPart.all Char.isDigit then
      some ((charsVal intPart : ℕ) : ℚ)
    else none
  | _ :: fracPart =>
    if (intPart ≠ [] ∨ fracPart ≠ []) ∧ intPart.all Char.isDigit ∧
        fracPart.all Char.isDigit then
      some ((charsVal intPart : ℕ) + (charsVal fracPart : ℕ) / (10 : ℚ) ^ fracPart.length)
    else none

/-- Parse a decimal numeral with an optional leading minus sign, as
`Decimal(string)` and `float(string)` read the plain numerals the
exchange sends. -/
def parseDec (s : String) : Option ℚ :=
  if s.data.head? = some '-' then (parseUnsigned s.data.tail).map (fun q => -q)
  else parseUnsigned s.data

/-- Number of characters after the decimal point (zero when there is no
point). -/
def fracDigitCount (s : String) : ℕ :=
  ((s.data.dropWhile (fun c => c != '.')).drop 1).length

/-- ASCII uppercasing of one character, as Python `str.upper` acts on
the ticker symbols used here. -/
def pyCharUpper (c : Char) : Char :=
  if 97 ≤ c.toNat ∧ c.toNat ≤ 122 then Char.ofNat (c.toNat - 32) else c

/-- ASCII uppercasing of a string (`symbol.upper()`). -/
def pyUpper (s : String) : String := ⟨s.data.map pyCharUpper⟩

/-! ## Data model

The records the bot consumes and produces, with the field names of the
JSON objects and Python dictionaries they embed. -/

/-- The per-symbol trading rules the bot extracts in `get_symbol_info`
(`price_precision`, `quantity_precision`, `min_qty`, `step_size`). -/
structure TradingRules where
  price_precision : ℕ
  quantity_precision : ℕ
  min_qty : ℚ
  step_size : ℚ

/-- The errors the bot raises: a quantity below the exchange minimum and
an unknown symbol (both `ValueError`), a symbol record without a
`LOT_SIZE` filter or with unreadable filter fields (`StopIteration` or a
`Decimal` conversion error), a zero step size (`Decimal` division
error), and an order reply whose numeric fields do not read as numbers
(`float()` conversion error). -/
inductive BotError
  | belowMinimum
  | symbolNotFound
  | badSymbolData
  | invalidOperation
  | badOrderReply

/-- One entry of a symbol record's `filters` list.  Only the `LOT_SIZE`
entry's `minQty` and `stepSize` fields are ever read. -/
structure SymbolFilter where
  filterType : String
  minQty : String
  stepSize : String

/-- One symbol record of the exchange's instrument metadata
(`futures_exchange_info()["symbols"]`). -/
structure ExchangeSymbol where
  symbol : String
  pricePrecision : ℕ
  quantityPrecision : ℕ
  filters : List SymbolFilter

/-- The rules cache `_symbol_info_cache`, newest entry first; the Python
dict is keyed by the uppercased symbol and `List.lookup` returns the
most recent insertion. -/
abbrev Cache := List (String × TradingRules)

/-- Extraction of the trading rules from a symbol record: the two
precisions, and `minQty` and `stepSize` read from the first `LOT_SIZE`
filter (`main.py` lines 76 to 81).  `none` models the `StopIteration`
raised when no `LOT_SIZE` filter exists and the error raised when a
field is not a numeral. -/
def extractRules (s : ExchangeSymbol) : Option TradingRules :=
  match s.filters.find? (fun f => f.filterType == "LOT_SIZE") with
  | none => none
  | some f =>
    match parseDec f.minQty, parseDec f.stepSize with
    | some mq, some st => some ⟨s.pricePrecision, s.quantityPrecision, mq, st⟩
    | _, _ => none

/-- The rules lookup `get_symbol_info` (`main.py` lines 68 to 87) as a
function of the exchange's instrument list and the current cache.  The
result carries the updated cache and the number of network requests the
call issued (`futures_exchange_info` is one bulk request; a cache hit
makes none). -/
def get_symbol_info (exch : List ExchangeSymbol) (cache : Cache) (symbol : String) :
    Except BotError TradingRules × Cache × ℕ :=
  let symbolUpper := pyUpper symbol
  match cache.lookup symbolUpper with
  | some info => (.ok info, cache, 0)
  | none =>
    match exch.find? (fun s => s.symbol == symbolUpper) with
    | some s =>
      match extractRules s with
      | some info => (.ok info, (symbolUpper, info) :: cache, 1)
      | none => (.error .badSymbolData, cache, 1)
    | none => (.error .symbolNotFound, cache, 1)

/-- The quantity normalizer, `main.py` lines 99 to 105, applied to
already-fetched rules: reject a quantity below `min_qty`, otherwise
round down to a whole number of steps and format with
`quantity_precision` fractional digits.  A zero step size makes the
`Decimal` division raise, modelled by `invalidOperation`. -/
def normalizeQuantity (rules : TradingRules) (quantity : ℚ) : Except BotError String :=
  if quantity < rules.min_qty then
    .error .belowMinimum
  else if rules.step_size = 0 then
    .error .invalidOperation
  else
    .ok (formatFixed ((ratTrunc (quantity / rules.step_size) : ℚ) * rules.step_size)
      rules.quantity_precision)

/-- The whole of `_validate_and_format_quantity`: fetch the rules for
the symbol, then normalize the quantity against them. -/
def validate_and_format_quantity (exch : List ExchangeSymbol) (cache : Cache)
    (symbol : String) (quantity : ℚ) : Except BotError String × Cache × ℕ :=
  match get_symbol_info exch cache symbol with
  | (.ok info, cache2, n) => (normalizeQuantity info quantity, cache2, n)
  | (.error e, cache2, n) => (.error e, cache2, n)

/-- A raw order object as the exchange returns it.  The fields
`_format_order_response` reads are always present except `price`, which
market-order replies may omit (`order.get("price", 0)`). -/
structure RawOrder where
  orderId : ℤ
  symbol : String
  side : String
  type : String
  origQty : String
  price : Option String
  status : String

/-- The canonical order record `_format_order_response` hands back. -/
structure OrderRecord where
  order_id : ℤ
  symbol : String
  side : String
  type : String
  quantity : ℚ
  price : ℚ
  status : String

/-- The response mapper `_format_order_response` (`main.py` lines 130 to
140): copy the identifying fields, read `origQty` and `price` as
numbers, defaulting a missing price to zero.  `none` models the
`float()` conversion error on a malformed numeral. -/
def format_order_response (o : RawOrder) : Option OrderRecord :=
  match parseDec o.origQty, (match o.price with
    | none => some (0 : ℚ)
    | some ps => parseDec ps) with
  | some q, some p =>
    some ⟨o.orderId, o.symbol, o.side, o.type, q, p, o.status⟩
  | _, _ => none

/-- The parameters `place_limit_order` sends to
`futures_create_order`.  The transport stringifies them; the price
field keeps its numeric value, since the bot passes `f"{price}"`
through unchanged. -/
structure OrderParams where
  symbol : String
  side : String
  type : String
  timeInForce : Option String
  quantity : Option String
  price : Option ℚ

/-- The limit-order operation `place_limit_order` (`main.py` lines 119
to 125), with the exchange's order endpoint passed in as the function
`client` from request parameters to the raw reply.  The quantity is
normalized first (fetching rules costs the reported requests); the
order itself is one more request. -/
def place_limit_order (client : OrderParams → RawOrder) (exch : List ExchangeSymbol)
    (cache : Cache) (symbol side : String) (quantity price : ℚ) :
    Except BotError OrderRecord × Cache × ℕ :=
  match validate_and_format_quantity exch cache symbol quantity with
  | (.ok fq, cache2, n) =>
    let raw := client ⟨pyUpper symbol, pyUpper side, "LIMIT", some "GTC", some fq, some price⟩
    match format_order_response raw with
    | some rec => (.ok rec, cache2, n + 1)
    | none => (.error .badOrderReply, cache2, n + 1)
  | (.error e, cache2, n) => (.error e, cache2, n)

/-- One entry of the account snapshot's `assets` list.  The wallet
balance is the exact value of the numeral the exchange sends. -/
structure AssetBalance where
  asset : String
  walletBalance : ℚ

/-- The account snapshot `futures_account()` as far as
`get_account_balance` reads it. -/
structure FuturesAccount where
  totalMarginBalance : ℚ
  availableBalance : ℚ
  totalUnrealizedProfit : ℚ
  assets : List AssetBalance

/-- The summary `get_account_balance` returns. -/
structure BalanceSummary where
  total_margin_balance : ℚ
  available_balance : ℚ
  total_unrealized_pnl : ℚ
  balances : List AssetBalance

/-- The balance aggregation `get_account_balance` (`main.py` lines 58
to 66): pass the three totals through and keep the assets whose wallet
balance is strictly positive (`float(b["walletBalance"]) > 0`). -/
def get_account_balance (account : FuturesAccount) : BalanceSummary :=
  ⟨account.totalMarginBalance, account.availableBalance, account.totalUnrealizedProfit,
    account.assets.filter (fun b => 0 < b.walletBalance)⟩

/-! ## Digit and string lemmas -/

/-- A digit below ten renders to a character whose value reads back. -/
theorem dval_digitChar {d : ℕ} (h : d < 10) : dval (Nat.digitChar d) = d := by
  interval_cases d <;> decide

/-- A digit below ten renders to a digit character. -/
theorem isDigit_digitChar {d : ℕ} (h : d < 10) : (Nat.digitChar d).isDigit = true := by
  interval_cases d <;> decide

/-- Digit characters are not the decimal point. -/
theorem ne_dot_of_isDigit {c : Char} (h : c.isDigit = true) : (c != '.') = true := by
  rcases eq_or_ne c '.' with rfl | hc
  · exact absurd h (by decide)
  · exact bne_iff_ne.mpr hc

/-- Digit characters are not the minus sign. -/
theorem ne_minus_of_isDigit {c : Char} (h : c.isDigit = true) : c ≠ '-' := by
  rintro rfl
  exact absurd h (by decide)

theorem charsVal_append_singleton (l : List Char) (c : Char) :
    charsVal (l ++ [c]) = charsVal l * 10 + dval c := by
  simp [charsVal, List.foldl_append]

theorem charsVal_digitsRec : ∀ fuel n, n ≤ fuel → charsVal (digitsRec fuel n) = n := by
  intro fuel
  induction fuel with
  | zero =>
    intro n hn
    interval_cases n
    rfl
  | succ fuel ih =>
    intro n hn
    match n with
    | 0 => rfl
    | m + 1 =>
      have hdiv : (m + 1) / 10 < m + 1 := Nat.div_lt_self (Nat.succ_pos m) (by norm_num)
      rw [digitsRec, charsVal_append_singleton, dval_digitChar (Nat.mod_lt _ (by omega)),
        ih _ (by omega)]
      omega

theorem isDigit_of_mem_digitsRec :
    ∀ fuel n c, c ∈ digitsRec fuel n → c.isDigit = true := by
  intro fuel
  induction fuel with
  | zero =>
    intro n c hc
    simp [digitsRec] at hc
  | succ fuel ih =>
    intro n c hc
    match n with
    | 0 => simp [digitsRec] at hc
    | m + 1 =>
      rw [digitsRec, List.mem_append] at hc
      rcases hc with hc | hc
      · exact ih _ c hc
      · rw [List.mem_singleton] at hc
        subst hc
        exact isDigit_digitChar (Nat.mod_lt _ (by omega))

theorem renderNat_ne_nil (n : ℕ) : renderNat n ≠ [] := by
  unfold renderNat
  split
  · simp
  · next h =>
    match n, h with
    | m + 1, _ =>
      rw [digitsRec]
      exact List.append_ne_nil_of_right_ne_nil _ (by simp)

theorem charsVal_renderNat (n : ℕ) : charsVal (renderNat n) = n := by
  unfold renderNat
  split
  · next h =>
    subst h
    decide
  · exact charsVal_digitsRec n n le_rfl

theorem isDigit_of_mem_renderNat {n : ℕ} {c : Char} (hc : c ∈ renderNat n) :
    c.isDigit = true := by
  unfold renderNat at hc
  split at hc
  · rw [List.mem_singleton] at hc
    subst hc
    decide
  · exact isDigit_of_mem_digitsRec n n c hc

theorem fixedDigits_length : ∀ (w n : ℕ), (fixedDigits n w).length = w := by
  intro w
  induction w with
  | zero =>
    intro n
    rfl
  | succ w ih =>
    intro n
    rw [fixedDigits]
    simp [List.length_append, ih]

theorem charsVal_fixedDigits : ∀ (w n : ℕ), charsVal (fixedDigits n w) = n % 10 ^ w := by
  intro w
  induction w with
  | zero =>
    intro n
    simp [fixedDigits, charsVal, Nat.mod_one]
  | succ w ih =>
    intro n
    rw [fixedDigits, charsVal_append_singleton, dval_digitChar (Nat.mod_lt _ (by omega)), ih,
      pow_succ', Nat.mod_mul]
    ring

theorem isDigit_of_mem_fixedDigits :
    ∀ (w n : ℕ) (c : Char), c ∈ fixedDigits n w → c.isDigit = true := by
  intro w
  induction w with
  | zero =>
    intro n c hc
    simp [fixedDigits] at hc
  | succ w ih =>
    intro n c hc
    rw [fixedDigits, List.mem_append] at hc
    rcases hc with hc | hc
    · exact ih _ c hc
    · rw [List.mem_singleton] at hc
      subst hc
      exact isDigit_digitChar (Nat.mod_lt _ (by omega))

theorem takeWhile_append_of_all {α : Type} (pr : α → Bool) :
    ∀ (a b : List α), (∀ c ∈ a, pr c = true) →
      (a ++ b).takeWhile pr = a ++ b.takeWhile pr ∧
        (a ++ b).dropWhile pr = b.dropWhile pr := by
  intro a
  induction a with
  | nil =>
    intro b _
    simp
  | cons c a ih =>
    intro b h
    have hc : pr c = true := h c (List.mem_cons_self c a)
    have hrest := ih b (fun x hx => h x (List.mem_cons_of_mem c hx))
    simp [List.takeWhile_cons, List.dropWhile_cons, hc, hrest.1, hrest.2]

/-- Parsing the two-part rendering `digits.digits` recovers the value. -/
theorem parseUnsigned_intFrac (ip n p : ℕ) :
    parseUnsigned (renderNat ip ++ '.' :: fixedDigits n p) =
      some ((ip : ℚ) + ((n % 10 ^ p : ℕ) : ℚ) / (10 : ℚ) ^ p) := by
  have hall : ∀ c ∈ renderNat ip, (fun c => c != '.') c = true := fun c hc =>
    ne_dot_of_isDigit (isDigit_of_mem_renderNat hc)
  obtain ⟨ht, hd⟩ :=
    takeWhile_append_of_all (fun c => c != '.') (renderNat ip) ('.' :: fixedDigits n p) hall
  simp only [List.dropWhile_cons, List.takeWhile_cons] at ht hd
  norm_num at ht hd
  simp only [parseUnsigned, ht, hd]
  rw [if_pos]
  · rw [charsVal_renderNat, charsVal_fixedDigits, fixedDigits_length]
  · refine ⟨Or.inl (renderNat_ne_nil ip), ?_, ?_⟩
    · exact List.all_eq_true.mpr fun c hc => isDigit_of_mem_renderNat hc
    · exact List.all_eq_true.mpr fun c hc => isDigit_of_mem_fixedDigits p n c hc

theorem takeWhile_eq_self_of_all {α : Type} (pr : α → Bool) :
    ∀ (l : List α), (∀ c ∈ l, pr c = true) →
      l.takeWhile pr = l ∧ l.dropWhile pr = [] := by
  intro l
  induction l with
  | nil =>
    intro _
    simp
  | cons c l ih =>
    intro h
    have hc : pr c = true := h c (List.mem_cons_self c l)
    have hrest := ih (fun x hx => h x (List.mem_cons_of_mem c hx))
    simp [List.takeWhile_cons, List.dropWhile_cons, hc, hrest.1, hrest.2]

/-- Parsing the rendering of a bare natural number recovers it. -/
theorem parseUnsigned_renderNat (m : ℕ) :
    parseUnsigned (renderNat m) = some ((m : ℕ) : ℚ) := by
  have hall : ∀ c ∈ renderNat m, (fun c => c != '.') c = true := fun c hc =>
    ne_dot_of_isDigit (isDigit_of_mem_renderNat hc)
  obtain ⟨ht, hd⟩ := takeWhile_eq_self_of_all (fun c => c != '.') (renderNat m) hall
  simp only [parseUnsigned, ht, hd]
  rw [if_pos ⟨renderNat_ne_nil m, List.all_eq_true.mpr fun c hc => isDigit_of_mem_renderNat hc⟩,
    charsVal_renderNat]

/-- A leading minus sign negates the unsigned parse. -/
theorem parseDec_cons_minus (l : List Char) :
    parseDec ⟨'-' :: l⟩ = (parseUnsigned l).map (fun q => -q) := by
  simp [parseDec]

/-- A string starting with the rendering of a natural number does not
take the sign branch of `parseDec`. -/
theorem parseDec_renderNat_append (x : ℕ) (b : List Char) :
    parseDec ⟨renderNat x ++ b⟩ = parseUnsigned (renderNat x ++ b) := by
  obtain ⟨c, cs, hcc⟩ := List.exists_cons_of_ne_nil (renderNat_ne_nil x)
  have hdig : c.isDigit = true := isDigit_of_mem_renderNat (hcc ▸ List.mem_cons_self c cs)
  have hm : c ≠ '-' := ne_minus_of_isDigit hdig
  rw [parseDec, show (String.mk (renderNat x ++ b)).data = renderNat x ++ b from rfl, hcc,
    List.cons_append]
  rw [if_neg (by simp [hm]), ← List.cons_append, ← hcc]

/-- Sum of the quotient and the scaled remainder of a division by a
power of ten, over `ℚ`. -/
theorem natCast_div_add_mod_div (m p : ℕ) :
    ((m / 10 ^ p : ℕ) : ℚ) + ((m % 10 ^ p : ℕ) : ℚ) / (10 : ℚ) ^ p
      = (m : ℚ) / (10 : ℚ) ^ p := by
  have h10 : ((10 : ℚ) ^ p) ≠ 0 := pow_ne_zero _ (by norm_num)
  rw [eq_div_iff h10, add_mul, div_mul_cancel₀ _ h10]
  exact_mod_cast Nat.div_add_mod' m (10 ^ p)

/-- Parsing a fixed-point rendering recovers the scaled value. -/
theorem parseDec_renderFixed (z : ℤ) (p : ℕ) :
    parseDec (renderFixed z p) = some ((z : ℚ) / 10 ^ p) := by
  have hmod : z.natAbs % 10 ^ p % 10 ^ p = z.natAbs % 10 ^ p :=
    Nat.mod_mod_of_dvd _ dvd_rfl
  have habs : 0 ≤ z → ((z.natAbs : ℕ) : ℚ) = (z : ℚ) := by
    intro hz
    rw [Int.cast_natAbs]
    exact congrArg (fun t : ℤ => (t : ℚ)) (abs_of_nonneg hz)
  have habsneg : z < 0 → ((z.natAbs : ℕ) : ℚ) = -(z : ℚ) := by
    intro hz
    rw [Int.cast_natAbs, abs_of_nonpos hz.le]
    push_cast
    ring_nf
  rcases lt_or_le z 0 with hz | hz
  · rw [renderFixed]
    simp only [if_pos hz]
    rcases Nat.eq_zero_or_pos p with hp | hp
    · subst hp
      rw [if_pos rfl]
      rw [show (String.mk ((['-'] : List Char) ++ renderNat z.natAbs) : String) =
          String.mk ('-' :: renderNat z.natAbs) from rfl,
        parseDec_cons_minus, parseUnsigned_renderNat]
      simp only [Option.map_some']
      rw [habsneg hz]
      norm_num
    · rw [if_neg (Nat.pos_iff_ne_zero.mp hp)]
      rw [show (String.mk ((['-'] : List Char) ++ renderNat (z.natAbs / 10 ^ p) ++
            '.' :: fixedDigits (z.natAbs % 10 ^ p) p) : String) =
          String.mk ('-' :: (renderNat (z.natAbs / 10 ^ p) ++
            '.' :: fixedDigits (z.natAbs % 10 ^ p) p)) from rfl,
        parseDec_cons_minus, parseUnsigned_intFrac]
      simp only [Option.map_some']
      rw [hmod, natCast_div_add_mod_div z.natAbs p, habsneg hz]
      ring_nf
  · rw [renderFixed]
    simp only [if_neg (not_lt.mpr hz), List.nil_append]
    rcases Nat.eq_zero_or_pos p with hp | hp
    · subst hp
      have hra := parseDec_renderNat_append z.natAbs []
      rw [List.append_nil] at hra
      rw [if_pos rfl, hra, parseUnsigned_renderNat, habs hz]
      norm_num
    · rw [if_neg (Nat.pos_iff_ne_zero.mp hp), parseDec_renderNat_append,
        parseUnsigned_intFrac, hmod, natCast_div_add_mod_div z.natAbs p, habs hz]

/-- A fixed-point rendering shows exactly `p` characters after the
decimal point. -/
theorem fracDigitCount_renderFixed (z : ℤ) (p : ℕ) :
    fracDigitCount (renderFixed z p) = p := by
  have hsign : ∀ c ∈ (if z < 0 then (['-'] : List Char) else []), (c != '.') = true := by
    intro c hc
    split at hc
    · rw [List.mem_singleton] at hc
      subst hc
      decide
    · simp at hc
  have hdig : ∀ (x : ℕ) (c : Char), c ∈ renderNat x → (c != '.') = true := fun x c hc =>
    ne_dot_of_isDigit (isDigit_of_mem_renderNat hc)
  rw [renderFixed]
  rcases Nat.eq_zero_or_pos p with hp | hp
  · subst hp
    rw [if_pos rfl, fracDigitCount]
    have hall : ∀ c ∈ (if z < 0 then (['-'] : List Char) else []) ++ renderNat z.natAbs,
        (fun c => c != '.') c = true := by
      intro c hc
      rw [List.mem_append] at hc
      rcases hc with hc | hc
      · exact hsign c hc
      · exact hdig _ c hc
    rw [show (String.mk ((if z < 0 then (['-'] : List Char) else []) ++
        renderNat z.natAbs)).data = (if z < 0 then (['-'] : List Char) else []) ++
        renderNat z.natAbs from rfl,
      (takeWhile_eq_self_of_all _ _ hall).2]
    rfl
  · rw [if_neg (Nat.pos_iff_ne_zero.mp hp), fracDigitCount]
    have hall : ∀ c ∈ (if z < 0 then (['-'] : List Char) else []) ++
        renderNat (z.natAbs / 10 ^ p), (fun c => c != '.') c = true := by
      intro c hc
      rw [List.mem_append] at hc
      rcases hc with hc | hc
      · exact hsign c hc
      · exact hdig _ c hc
    have hassoc : ((if z < 0 then (['-'] : List Char) else []) ++
        renderNat (z.natAbs / 10 ^ p) ++ '.' :: fixedDigits (z.natAbs % 10 ^ p) p) =
        ((if z < 0 then (['-'] : List Char) else []) ++ renderNat (z.natAbs / 10 ^ p)) ++
          ('.' :: fixedDigits (z.natAbs % 10 ^ p) p) := by
      rw [List.append_assoc]
    rw [show (String.mk ((if z < 0 then (['-'] : List Char) else []) ++
        renderNat (z.natAbs / 10 ^ p) ++ '.' :: fixedDigits (z.natAbs % 10 ^ p) p)).data =
        (if z < 0 then (['-'] : List Char) else []) ++
        renderNat (z.natAbs / 10 ^ p) ++ '.' :: fixedDigits (z.natAbs % 10 ^ p) p from rfl,
      hassoc, (takeWhile_append_of_all _ _ _ hall).2]
    rw [List.dropWhile_cons]
    norm_num [fixedDigits_length]

/-- Half-even rounding leaves integers alone. -/
theorem roundHalfEven_intCast (z : ℤ) : roundHalfEven ((z : ℤ) : ℚ) = z := by
  rw [roundHalfEven]
  norm_num [Int.floor_intCast]

/-- Toward-zero rounding agrees with the floor on nonnegative values. -/
theorem ratTrunc_of_nonneg {x : ℚ} (h : 0 ≤ x) : ratTrunc x = ⌊x⌋ := if_pos h

/-- When the scaled value is already an integer, formatting renders that
integer exactly. -/
theorem formatFixed_eq_renderFixed {d : ℚ} {p : ℕ} {z : ℤ} (h : d * 10 ^ p = (z : ℚ)) :
    formatFixed d p = renderFixed z p := by
  rw [formatFixed, h, roundHalfEven_intCast]

/-- Parsing a formatted decimal gives the rounded scaled value. -/
theorem parseDec_formatFixed (d : ℚ) (p : ℕ) :
    parseDec (formatFixed d p) = some ((roundHalfEven (d * 10 ^ p) : ℚ) / 10 ^ p) :=
  parseDec_renderFixed _ p

/-- Characters below `55296` are valid code points, so `Char.ofNat`
returns them unchanged. -/
theorem toNat_ofNat_lt {n : ℕ} (h : n < 55296) : (Char.ofNat n).toNat = n := by
  rw [Char.ofNat, dif_pos (Or.inl h)]
  rfl

/-- Uppercasing never produces a lowercase ASCII letter. -/
theorem pyCharUpper_not_lower (c : Char) :
    ¬(97 ≤ (pyCharUpper c).toNat ∧ (pyCharUpper c).toNat ≤ 122) := by
  rw [pyCharUpper]
  split
  · next h =>
    rw [toNat_ofNat_lt (by omega)]
    omega
  · next h => exact h

/-- ASCII uppercasing of a character is idempotent. -/
theorem pyCharUpper_idem (c : Char) : pyCharUpper (pyCharUpper c) = pyCharUpper c := by
  show (if 97 ≤ (pyCharUpper c).toNat ∧ (pyCharUpper c).toNat ≤ 122 then
      Char.ofNat ((pyCharUpper c).toNat - 32) else pyCharUpper c) = pyCharUpper c
  exact if_neg (pyCharUpper_not_lower c)

/-- ASCII uppercasing of a string is idempotent. -/
theorem pyUpper_idem (s : String) : pyUpper (pyUpper s) = pyUpper s := by
  refine congrArg String.mk ?_
  rw [show (pyUpper s).data = s.data.map pyCharUpper from rfl, List.map_map]
  exact List.map_congr_left fun c _ => pyCharUpper_idem c

/-- The rules lookup uppercases its argument first, so pre-uppercasing
the symbol changes nothing. -/
theorem get_symbol_info_pyUpper (exch : List ExchangeSymbol) (cache : Cache) (s : String) :
    get_symbol_info exch cache (pyUpper s) = get_symbol_info exch cache s := by
  rw [get_symbol_info, get_symbol_info, pyUpper_idem]

/-! ## Behaviour of the normalizer -/

/-- An accepted quantity was not below the minimum, had a nonzero step,
and produced exactly the formatted rounded-down multiple. -/
theorem normalizeQuantity_ok_inv {r : TradingRules} {q : ℚ} {s : String}
    (h : normalizeQuantity r q = .ok s) :
    ¬q < r.min_qty ∧ r.step_size ≠ 0 ∧
      s = formatFixed ((ratTrunc (q / r.step_size) : ℚ) * r.step_size)
        r.quantity_precision := by
  rw [normalizeQuantity] at h
  by_cases h1 : q < r.min_qty
  · rw [if_pos h1] at h
    exact absurd h (by simp)
  by_cases h2 : r.step_size = 0
  · rw [if_neg h1, if_pos h2] at h
    exact absurd h (by simp)
  rw [if_neg h1, if_neg h2] at h
  injection h with h
  exact ⟨h1, h2, h.symm⟩

/-- The success equation of the normalizer. -/
theorem normalizeQuantity_ok {r : TradingRules} {q : ℚ} (hmin : ¬q < r.min_qty)
    (hs : r.step_size ≠ 0) :
    normalizeQuantity r q =
      .ok (formatFixed ((ratTrunc (q / r.step_size) : ℚ) * r.step_size)
        r.quantity_precision) := by
  rw [normalizeQuantity, if_neg hmin, if_neg hs]

/-- When the step size fits in the output precision and the quantity is
nonnegative, the accepted output parses back to the rounded-down
multiple of the step, with no loss in the final formatting. -/
theorem normalizeQuantity_parse_value {r : TradingRules} {q : ℚ} {s : String} (zz : ℤ)
    (hfit : r.step_size * 10 ^ r.quantity_precision = (zz : ℚ))
    (hstep : 0 < r.step_size) (hq0 : 0 ≤ q)
    (h : normalizeQuantity r q = .ok s) :
    parseDec s = some ((⌊q / r.step_size⌋ : ℚ) * r.step_size) := by
  obtain ⟨hmin, hs0, hsform⟩ := normalizeQuantity_ok_inv h
  subst hsform
  have htr : ratTrunc (q / r.step_size) = ⌊q / r.step_size⌋ :=
    ratTrunc_of_nonneg (div_nonneg hq0 hstep.le)
  have hint : ((ratTrunc (q / r.step_size) : ℚ) * r.step_size) * 10 ^ r.quantity_precision
      = ((⌊q / r.step_size⌋ * zz : ℤ) : ℚ) := by
    rw [htr, mul_assoc, hfit]
    push_cast
    ring
  have h10 : ((10 : ℚ) ^ r.quantity_precision) ≠ 0 := pow_ne_zero _ (by norm_num)
  rw [parseDec_formatFixed, hint, roundHalfEven_intCast]
  congr 1
  push_cast
  rw [← hfit]
  field_simp
  ring

/-! ## Behaviour of the rules cache -/

/-- A successful rules lookup costs at most one request, leaves the
rules stored under the uppercased symbol, and a repeat lookup is a free
cache hit returning the same rules and leaving the cache unchanged. -/
theorem get_symbol_info_ok_inv (exch : List ExchangeSymbol) (cache : Cache)
    (symbol : String) (info : TradingRules) (cache2 : Cache) (n : ℕ)
    (h : get_symbol_info exch cache symbol = (.ok info, cache2, n)) :
    n ≤ 1 ∧ cache2.lookup (pyUpper symbol) = some info ∧
      get_symbol_info exch cache2 symbol = (.ok info, cache2, 0) := by
  rw [get_symbol_info] at h ⊢
  cases hl : List.lookup (pyUpper symbol) cache with
  | some info0 =>
    rw [hl] at h
    simp only [Prod.mk.injEq] at h
    obtain ⟨ha, hb, hc⟩ := h
    injection ha with ha
    subst ha
    subst hb
    subst hc
    rw [hl]
    exact ⟨by omega, rfl, rfl⟩
  | none =>
    rw [hl] at h
    dsimp only at h
    cases hf : List.find? (fun s => s.symbol == pyUpper symbol) exch with
    | none =>
      rw [hf] at h
      simp at h
    | some srec =>
      rw [hf] at h
      dsimp only at h
      cases he : extractRules srec with
      | none =>
        rw [he] at h
        simp at h
      | some info1 =>
        rw [he] at h
        simp only [Prod.mk.injEq] at h
        obtain ⟨ha, hb, hc⟩ := h
        injection ha with ha
        subst ha
        subst hc
        have hlook : List.lookup (pyUpper symbol) cache2 = some info1 := by
          rw [← hb]
          simp [List.lookup]
        rw [hlook]
        exact ⟨le_rfl, rfl, rfl⟩

/-! ## Concrete records and evaluation helpers -/

/-- The rules of the concrete scenarios in the specification:
`minQuantity = 0.001`, `stepSize = 0.001`, `quantityPrecision = 3`. -/
def demoRules : TradingRules := ⟨2, 3, 1/1000, 1/1000⟩

/-- An exchange symbol record carrying exactly those rules. -/
def demoSymbol : ExchangeSymbol := ⟨"BTCUSDT", 2, 3, [⟨"LOT_SIZE", "0.001", "0.001"⟩]⟩

/-- Toward-zero rounding evaluated through floor bounds. -/
theorem ratTrunc_pos_eval {x : ℚ} {z : ℤ} (h0 : 0 ≤ x) (h1 : (z : ℚ) ≤ x)
    (h2 : x < z + 1) : ratTrunc x = z := by
  rw [ratTrunc_of_nonneg h0]
  exact Int.floor_eq_iff.mpr ⟨h1, h2⟩

/-- Half-even rounding of a value whose fraction exceeds one half. -/
theorem roundHalfEven_eq_add_one {x : ℚ} {z : ℤ} (hf : ⌊x⌋ = z) (h2 : 1/2 < x - z) :
    roundHalfEven x = z + 1 := by
  simp only [roundHalfEven, hf]
  rw [if_neg (by linarith), if_pos h2]

/-- Evaluation scheme for the normalizer at a concrete accepted input
whose adjusted value is exactly representable: compute the truncated
quotient, the scaled integer, and the rendered string. -/
theorem normalizeQuantity_eval {r : TradingRules} {q : ℚ} (hmin : ¬q < r.min_qty)
    (hs : r.step_size ≠ 0) {t : ℤ} (ht : ratTrunc (q / r.step_size) = t)
    {z : ℤ} (hz : ((t : ℚ) * r.step_size) * 10 ^ r.quantity_precision = (z : ℚ))
    {out : String} (hout : renderFixed z r.quantity_precision = out) :
    normalizeQuantity r q = .ok out := by
  rw [normalizeQuantity_ok hmin hs, ht, formatFixed_eq_renderFixed hz, hout]

/-- Evaluation scheme for `parseDec` at a rendered string. -/
theorem parseDec_eval {s : String} {z : ℤ} {p : ℕ} (hs : renderFixed z p = s) {v : ℚ}
    (hv : ((z : ℚ) / 10 ^ p) = v) : parseDec s = some v := by
  rw [← hs, parseDec_renderFixed, hv]

/-- The concrete scenario of the specification: quantity `0.0035`
against `demoRules` normalizes to the string `"0.003"`. -/
theorem normalize_demo_eval : normalizeQuantity demoRules (35/10000) = .ok "0.003" := by
  refine normalizeQuantity_eval (by norm_num [demoRules]) (by norm_num [demoRules])
    (t := 3) ?_ (z := 3) (by norm_num [demoRules]) (by decide)
  rw [show (35/10000 : ℚ) / demoRules.step_size = 7/2 from by norm_num [demoRules]]
  exact ratTrunc_pos_eval (by norm_num) (by norm_num) (by norm_num)

/-! ## Claims about the quantity normalizer -/

/-- Claim C1 (amended): for rules with a positive step size, a
nonnegative minimum quantity, and a step size exactly representable
with `quantityPrecision` fractional digits, every quantity at or above
the minimum is accepted, and the returned string parses to an integer
multiple of the step size that does not exceed the request; in
particular `normalize(demoRules, 0.0035)` returns `"0.003"`. -/
theorem quantity_normalizer_rounds_down (r : TradingRules) (q : ℚ)
    (hstep : 0 < r.step_size) (hmin0 : 0 ≤ r.min_qty) (zz : ℤ)
    (hfit : r.step_size * 10 ^ r.quantity_precision = (zz : ℚ))
    (hq : r.min_qty ≤ q) :
    (∃ s v, normalizeQuantity r q = .ok s ∧ parseDec s = some v ∧
      (∃ k : ℤ, v = (k : ℚ) * r.step_size) ∧ v ≤ q) ∧
    normalizeQuantity demoRules (35/10000) = .ok "0.003" := by
  have hmin : ¬q < r.min_qty := not_lt.mpr hq
  have hq0 : 0 ≤ q := le_trans hmin0 hq
  have hok := normalizeQuantity_ok hmin hstep.ne'
  refine ⟨⟨_, _, hok, normalizeQuantity_parse_value zz hfit hstep hq0 hok,
    ⟨⌊q / r.step_size⌋, rfl⟩, ?_⟩, normalize_demo_eval⟩
  calc (⌊q / r.step_size⌋ : ℚ) * r.step_size
      ≤ (q / r.step_size) * r.step_size :=
        mul_le_mul_of_nonneg_right (Int.floor_le _) hstep.le
    _ = q := div_mul_cancel₀ q hstep.ne'

/-- Witness for C1 at the concrete scenario rules and quantity. -/
theorem quantity_normalizer_rounds_down_witness :
    (0 < demoRules.step_size ∧ 0 ≤ demoRules.min_qty ∧
      demoRules.step_size * 10 ^ demoRules.quantity_precision = ((1 : ℤ) : ℚ) ∧
      demoRules.min_qty ≤ 35/10000) ∧
    ((∃ s v, normalizeQuantity demoRules (35/10000) = .ok s ∧ parseDec s = some v ∧
      (∃ k : ℤ, v = (k : ℚ) * demoRules.step_size) ∧ v ≤ 35/10000) ∧
    normalizeQuantity demoRules (35/10000) = .ok "0.003") :=
  ⟨⟨by norm_num [demoRules], by norm_num [demoRules], by norm_num [demoRules],
      by norm_num [demoRules]⟩,
    quantity_normalizer_rounds_down demoRules (35/10000) (by norm_num [demoRules])
      (by norm_num [demoRules]) 1 (by norm_num [demoRules]) (by norm_num [demoRules])⟩

/-- Rules whose step size does not fit in `quantityPrecision` digits:
`stepSize = minQuantity = 0.0046` with three output digits. -/
def coarseRules : TradingRules := ⟨2, 3, 23/5000, 23/5000⟩

/-- Counterexample to C1 as frozen: with `stepSize = 0.0046 > 0` and
`q = 0.0046 = minQuantity`, the normalizer returns `"0.005"`, which
parses to `0.005 > q` and is not an integer multiple of the step. -/
theorem quantity_normalizer_rounds_down_counterexample :
    0 < coarseRules.step_size ∧ coarseRules.min_qty ≤ 23/5000 ∧
    normalizeQuantity coarseRules (23/5000) = .ok "0.005" ∧
    parseDec "0.005" = some (1/200) ∧
    ¬((1 : ℚ)/200 ≤ 23/5000) ∧
    ¬(∃ k : ℤ, (1 : ℚ)/200 = (k : ℚ) * coarseRules.step_size) := by
  refine ⟨by norm_num [coarseRules], by norm_num [coarseRules], ?_, ?_, by norm_num, ?_⟩
  · have hmin : ¬(23/5000 : ℚ) < coarseRules.min_qty := by norm_num [coarseRules]
    have hs : coarseRules.step_size ≠ 0 := by norm_num [coarseRules]
    have ht : ratTrunc ((23/5000 : ℚ) / coarseRules.step_size) = 1 := by
      rw [show (23/5000 : ℚ) / coarseRules.step_size = 1 from by norm_num [coarseRules]]
      exact ratTrunc_pos_eval (by norm_num) (by norm_num) (by norm_num)
    rw [normalizeQuantity_ok hmin hs, ht, formatFixed]
    rw [show (((1 : ℤ) : ℚ) * coarseRules.step_size) * 10 ^ coarseRules.quantity_precision
        = 23/5 from by norm_num [coarseRules]]
    have hrhe : roundHalfEven ((23 : ℚ)/5) = 5 := by
      rw [roundHalfEven_eq_add_one (z := 4) (Int.floor_eq_iff.mpr (by norm_num))
        (by norm_num)]
      decide
    rw [hrhe]
    rw [show renderFixed 5 coarseRules.quantity_precision = "0.005" from by decide]
  · exact parseDec_eval (z := 5) (p := 3) (by decide) (by norm_num)
  · rintro ⟨k, hk⟩
    rw [show coarseRules.step_size = 23/5000 from by norm_num [coarseRules]] at hk
    have h23 : (k : ℚ) * 23 = 25 := by
      field_simp at hk
      linarith
    have h23z : k * 23 = 25 := by exact_mod_cast h23
    omega

/-- Claim C2 (amended): when additionally the minimum quantity is itself
an integer multiple of the step size, every accepted quantity parses to
an integer multiple of the step size that is at least the minimum. -/
theorem quantity_normalizer_respects_minimum (r : TradingRules) (q : ℚ) (s : String)
    (v : ℚ) (hstep : 0 < r.step_size) (hmin0 : 0 ≤ r.min_qty) (zz : ℤ)
    (hfit : r.step_size * 10 ^ r.quantity_precision = (zz : ℚ)) (j : ℤ)
    (hminmul : r.min_qty = (j : ℚ) * r.step_size)
    (hok : normalizeQuantity r q = .ok s) (hv : parseDec s = some v) :
    (∃ k : ℤ, v = (k : ℚ) * r.step_size) ∧ r.min_qty ≤ v := by
  obtain ⟨hmin, -, -⟩ := normalizeQuantity_ok_inv hok
  have hq : r.min_qty ≤ q := not_lt.mp hmin
  have hq0 : 0 ≤ q := le_trans hmin0 hq
  have hval := normalizeQuantity_parse_value zz hfit hstep hq0 hok
  rw [hval] at hv
  injection hv with hv
  subst hv
  refine ⟨⟨⌊q / r.step_size⌋, rfl⟩, ?_⟩
  have hj : (j : ℚ) ≤ q / r.step_size := by
    rw [le_div_iff₀ hstep]
    rw [hminmul] at hq
    exact hq
  have hjf : (j : ℚ) ≤ (⌊q / r.step_size⌋ : ℚ) := by
    exact_mod_cast Int.le_floor.mpr hj
  rw [hminmul]
  exact mul_le_mul_of_nonneg_right hjf hstep.le

/-- Witness for C2 at the concrete scenario. -/
theorem quantity_normalizer_respects_minimum_witness :
    (0 < demoRules.step_size ∧ 0 ≤ demoRules.min_qty ∧
      demoRules.step_size * 10 ^ demoRules.quantity_precision = ((1 : ℤ) : ℚ) ∧
      demoRules.min_qty = ((1 : ℤ) : ℚ) * demoRules.step_size ∧
      normalizeQuantity demoRules (35/10000) = .ok "0.003" ∧
      parseDec "0.003" = some (3/1000)) ∧
    ((∃ k : ℤ, (3 : ℚ)/1000 = (k : ℚ) * demoRules.step_size) ∧
      demoRules.min_qty ≤ 3/1000) :=
  ⟨⟨by norm_num [demoRules], by norm_num [demoRules], by norm_num [demoRules],
      by norm_num [demoRules], normalize_demo_eval, parseDec_eval (z := 3) (p := 3) (by decide)
        (by norm_num)⟩,
    quantity_normalizer_respects_minimum demoRules (35/10000) "0.003" (3/1000)
      (by norm_num [demoRules]) (by norm_num [demoRules]) 1 (by norm_num [demoRules]) 1
      (by norm_num [demoRules]) normalize_demo_eval
      (parseDec_eval (z := 3) (p := 3) (by decide) (by norm_num))⟩

/-- Rules whose minimum quantity is not a multiple of the step:
`minQuantity = 0.0015`, `stepSize = 0.001`. -/
def offGridRules : TradingRules := ⟨2, 3, 15/10000, 1/1000⟩

/-- Counterexample to C2 as frozen: the accepted quantity `0.0016` is
rounded down to `0.001`, strictly below the minimum `0.0015`. -/
theorem quantity_normalizer_respects_minimum_counterexample :
    normalizeQuantity offGridRules (16/10000) = .ok "0.001" ∧
    parseDec "0.001" = some (1/1000) ∧
    ((1 : ℚ)/1000) < offGridRules.min_qty := by
  refine ⟨?_, parseDec_eval (z := 1) (p := 3) (by decide) (by norm_num),
    by norm_num [offGridRules]⟩
  refine normalizeQuantity_eval (by norm_num [offGridRules]) (by norm_num [offGridRules])
    (t := 1) ?_ (z := 1) (by norm_num [offGridRules]) (by decide)
  rw [show (16/10000 : ℚ) / offGridRules.step_size = 8/5 from by norm_num [offGridRules]]
  exact ratTrunc_pos_eval (by norm_num) (by norm_num) (by norm_num)

/-- Claim C3: every quantity strictly below the minimum is rejected with
the below-minimum error, before any arithmetic happens; in particular
`normalize(demoRules, 0.0005)` fails that way. -/
theorem quantity_normalizer_rejects_below_minimum (r : TradingRules) (q : ℚ)
    (h : q < r.min_qty) :
    normalizeQuantity r q = .error .belowMinimum ∧
      normalizeQuantity demoRules (5/10000) = .error .belowMinimum := by
  constructor
  · rw [normalizeQuantity, if_pos h]
  · rw [normalizeQuantity, if_pos (by norm_num [demoRules])]

/-- Witness for C3 at the concrete scenario. -/
theorem quantity_normalizer_rejects_below_minimum_witness :
    ((5/10000 : ℚ) < demoRules.min_qty) ∧
    (normalizeQuantity demoRules (5/10000) = .error .belowMinimum ∧
      normalizeQuantity demoRules (5/10000) = .error .belowMinimum) :=
  ⟨by norm_num [demoRules],
    quantity_normalizer_rejects_below_minimum demoRules (5/10000)
      (by norm_num [demoRules])⟩

/-- Claim C4: every accepted quantity is returned with exactly
`quantityPrecision` characters after the decimal point. -/
theorem quantity_normalizer_precision (r : TradingRules) (q : ℚ) (s : String)
    (h : normalizeQuantity r q = .ok s) :
    fracDigitCount s = r.quantity_precision := by
  obtain ⟨-, -, hs⟩ := normalizeQuantity_ok_inv h
  subst hs
  exact fracDigitCount_renderFixed _ _

/-- Witness for C4 at the concrete scenario. -/
theorem quantity_normalizer_precision_witness :
    normalizeQuantity demoRules (35/10000) = .ok "0.003" ∧
    fracDigitCount "0.003" = demoRules.quantity_precision :=
  ⟨normalize_demo_eval,
    quantity_normalizer_precision demoRules (35/10000) "0.003" normalize_demo_eval⟩

/-! ## Claims about the order gateway and the balance summary -/

/-- Claim C5: the response mapper is a pure function of the raw order
record, and a well-formed record lacking a price field maps to a record
with price zero. -/
theorem order_mapper_pure_and_defaults :
    (∀ o1 o2 : RawOrder, o1 = o2 → format_order_response o1 = format_order_response o2) ∧
    (∀ (o : RawOrder) (qv : ℚ), parseDec o.origQty = some qv → o.price = none →
      format_order_response o =
        some ⟨o.orderId, o.symbol, o.side, o.type, qv, 0, o.status⟩) := by
  refine ⟨fun o1 o2 h => congrArg _ h, fun o qv hq hp => ?_⟩
  rw [format_order_response, hq, hp]

/-- Witness for C5 on the specification's market-order echo. -/
theorem order_mapper_pure_and_defaults_witness :
    parseDec "0.010" = some (1/100) ∧
    format_order_response ⟨5, "BTCUSDT", "BUY", "MARKET", "0.010", none, "NEW"⟩ =
      some ⟨5, "BTCUSDT", "BUY", "MARKET", 1/100, 0, "NEW"⟩ := by
  have hp : parseDec "0.010" = some (1/100) :=
    parseDec_eval (z := 10) (p := 3) (by decide) (by norm_num)
  exact ⟨hp, order_mapper_pure_and_defaults.2 _ _ hp rfl⟩

/-- Claim C8 (amended): the balance summary passes the three totals of
the account snapshot through unchanged, and keeps exactly the asset
entries whose wallet balance is strictly positive. -/
theorem balance_summary_totals_and_filter (account : FuturesAccount) :
    (get_account_balance account).total_margin_balance = account.totalMarginBalance ∧
    (get_account_balance account).available_balance = account.availableBalance ∧
    (get_account_balance account).total_unrealized_pnl = account.totalUnrealizedProfit ∧
    ∀ b : AssetBalance, b ∈ (get_account_balance account).balances ↔
      b ∈ account.assets ∧ 0 < b.walletBalance := by
  refine ⟨rfl, rfl, rfl, fun b => ?_⟩
  rw [show (get_account_balance account).balances =
      account.assets.filter (fun b => 0 < b.walletBalance) from rfl, List.mem_filter,
    decide_eq_true_eq]

/-- An account snapshot with one negative wallet balance. -/
def negAccount : FuturesAccount := ⟨100, 50, 0, [⟨"USDT", -1⟩]⟩

/-- Counterexample to C8 as frozen: the entry with wallet balance `-1`
is non-zero, yet the summary drops it, because the code filters on
strictly positive balances. -/
theorem balance_summary_counterexample :
    (get_account_balance negAccount).balances = [] ∧
    negAccount.assets.filter (fun b => b.walletBalance ≠ 0) = negAccount.assets ∧
    negAccount.assets ≠ [] := by
  refine ⟨?_, ?_, by simp [negAccount]⟩
  · rw [show (get_account_balance negAccount).balances =
        negAccount.assets.filter (fun b => 0 < b.walletBalance) from rfl]
    rw [show negAccount.assets = [⟨"USDT", -1⟩] from rfl, List.filter_cons]
    rw [if_neg (by rw [decide_eq_true_eq]; norm_num)]
    rfl
  · rw [show negAccount.assets = [⟨"USDT", -1⟩] from rfl, List.filter_cons]
    rw [if_pos (by rw [decide_eq_true_eq]; norm_num)]
    rfl

/-! ## Claims about the rules cache -/

/-- Extraction of the demo symbol record yields the demo rules. -/
theorem extractRules_demo : extractRules demoSymbol = some demoRules := by
  rw [extractRules,
    show demoSymbol.filters.find? (fun f => f.filterType == "LOT_SIZE") =
      some ⟨"LOT_SIZE", "0.001", "0.001"⟩ from rfl]
  dsimp only
  rw [show parseDec "0.001" = some (1/1000 : ℚ) from
    parseDec_eval (z := 1) (p := 3) (by decide) (by norm_num)]
  rfl

/-- Evaluation of a cache-miss lookup of the demo symbol. -/
theorem get_symbol_info_demo :
    get_symbol_info [demoSymbol] [] "BTCUSDT" =
      (.ok demoRules, [("BTCUSDT", demoRules)], 1) := by
  simp only [get_symbol_info]
  rw [show pyUpper "BTCUSDT" = "BTCUSDT" from rfl,
    show List.lookup "BTCUSDT" ([] : Cache) = none from rfl,
    show List.find? (fun s => s.symbol == "BTCUSDT") [demoSymbol] = some demoSymbol
      from rfl]
  dsimp only
  rw [extractRules_demo]

/-- Claim C6 (amended): a rules lookup that succeeds issues at most one
request, and an immediate repeat for the same symbol is answered from
the cache with the identical rules, no cache change, and no request;
any cache hit returns the stored value with no request. -/
theorem rules_cache_idempotent (exch : List ExchangeSymbol) (cache : Cache)
    (symbol : String) (info : TradingRules) (cache2 : Cache) (n : ℕ)
    (h : get_symbol_info exch cache symbol = (.ok info, cache2, n)) :
    (n ≤ 1 ∧ get_symbol_info exch cache2 symbol = (.ok info, cache2, 0)) ∧
    (∀ (c0 : Cache) (i0 : TradingRules), List.lookup (pyUpper symbol) c0 = some i0 →
      get_symbol_info exch c0 symbol = (.ok i0, c0, 0)) := by
  obtain ⟨h1, h2, h3⟩ := get_symbol_info_ok_inv exch cache symbol info cache2 n h
  refine ⟨⟨h1, h3⟩, fun c0 i0 hl => ?_⟩
  rw [get_symbol_info, hl]

/-- Witness for C6 at the demo exchange list. -/
theorem rules_cache_idempotent_witness :
    get_symbol_info [demoSymbol] [] "BTCUSDT" =
      (.ok demoRules, [("BTCUSDT", demoRules)], 1) ∧
    (1 ≤ 1 ∧ get_symbol_info [demoSymbol] [("BTCUSDT", demoRules)] "BTCUSDT" =
      (.ok demoRules, [("BTCUSDT", demoRules)], 0)) :=
  ⟨get_symbol_info_demo,
    (rules_cache_idempotent _ _ _ _ _ _ get_symbol_info_demo).1⟩

/-- Counterexample to C6 as frozen: for a symbol the exchange does not
list, each of two consecutive lookups issues its own request (two in
total, not at most one), and no rules are returned. -/
theorem rules_cache_idempotent_counterexample :
    (get_symbol_info [] [] "BTCUSDT").2.2 = 1 ∧
    (get_symbol_info [] ((get_symbol_info [] [] "BTCUSDT").2.1) "BTCUSDT").2.2 = 1 ∧
    (get_symbol_info [] [] "BTCUSDT").1 = .error .symbolNotFound :=
  ⟨rfl, rfl, rfl⟩

/-- Claim C7: a symbol absent from the instrument list fails with the
symbol-not-found error (for any cache whose entries come from the
list); a listed symbol with readable size-filter data has its rules
stored under the uppercased symbol and returned. -/
theorem rules_lookup_contract (exch : List ExchangeSymbol) (cache : Cache)
    (symbol : String) :
    ((∀ k info, List.lookup k cache = some info → ∃ s ∈ exch, s.symbol = k) →
      (∀ s ∈ exch, s.symbol ≠ pyUpper symbol) →
      (get_symbol_info exch cache symbol).1 = .error .symbolNotFound) ∧
    (∀ (srec : ExchangeSymbol) (info : TradingRules),
      List.lookup (pyUpper symbol) cache = none →
      List.find? (fun s => s.symbol == pyUpper symbol) exch = some srec →
      extractRules srec = some info →
      get_symbol_info exch cache symbol =
        (.ok info, (pyUpper symbol, info) :: cache, 1) ∧
      List.lookup (pyUpper symbol) ((pyUpper symbol, info) :: cache) = some info) := by
  constructor
  · intro hcons habs
    have hf : List.find? (fun s => s.symbol == pyUpper symbol) exch = none := by
      rw [List.find?_eq_none]
      intro s hs
      simp [habs s hs]
    simp only [get_symbol_info]
    cases hl : List.lookup (pyUpper symbol) cache with
    | some info0 =>
      obtain ⟨s, hs, hss⟩ := hcons _ _ hl
      exact absurd hss (habs s hs)
    | none =>
      rw [hf]
  · intro srec info hl hf he
    constructor
    · simp only [get_symbol_info]
      rw [hl, hf]
      dsimp only
      rw [he]
    · simp [List.lookup]

/-- Witness for C7: an empty instrument list rejects, and the demo list
stores and returns the demo rules. -/
theorem rules_lookup_contract_witness :
    (get_symbol_info [] [] "BTCUSDT").1 = .error .symbolNotFound ∧
    (get_symbol_info [demoSymbol] [] "BTCUSDT" =
        (.ok demoRules, [("BTCUSDT", demoRules)], 1) ∧
      List.lookup "BTCUSDT" [("BTCUSDT", demoRules)] = some demoRules) := by
  constructor
  · refine (rules_lookup_contract [] [] "BTCUSDT").1 ?_ ?_
    · intro k info h
      simp [List.lookup] at h
    · intro s hs
      simp at hs
  · exact (rules_lookup_contract [demoSymbol] [] "BTCUSDT").2 demoSymbol demoRules rfl rfl
      extractRules_demo

/-- Claim C10 (amended): when a lookup succeeds, looking the symbol up
in uppercase gives the identical result from the same starting cache, a
repeat on the updated cache is a free hit, and the one stored entry is
keyed by the uppercase form, so the two differently-cased lookups cost
at most one request together. -/
theorem symbol_lookup_case_insensitive (exch : List ExchangeSymbol) (cache : Cache)
    (s : String) (info : TradingRules) (cache2 : Cache) (n : ℕ)
    (h : get_symbol_info exch cache s = (.ok info, cache2, n)) :
    get_symbol_info exch cache (pyUpper s) = (.ok info, cache2, n) ∧
    get_symbol_info exch cache2 (pyUpper s) = (.ok info, cache2, 0) ∧
    List.lookup (pyUpper s) cache2 = some info ∧ n ≤ 1 := by
  obtain ⟨h1, h2, h3⟩ := get_symbol_info_ok_inv exch cache s info cache2 n h
  refine ⟨?_, ?_, h2, h1⟩
  · rw [get_symbol_info_pyUpper]
    exact h
  · rw [get_symbol_info_pyUpper]
    exact h3

/-- Evaluation of a cache-miss lookup of the demo symbol in lowercase. -/
theorem get_symbol_info_demo_lower :
    get_symbol_info [demoSymbol] [] "btcusdt" =
      (.ok demoRules, [("BTCUSDT", demoRules)], 1) := by
  simp only [get_symbol_info]
  rw [show pyUpper "btcusdt" = "BTCUSDT" from by decide,
    show List.lookup "BTCUSDT" ([] : Cache) = none from rfl,
    show List.find? (fun s => s.symbol == "BTCUSDT") [demoSymbol] = some demoSymbol
      from rfl]
  dsimp only
  rw [extractRules_demo]

/-- Witness for C10: a lowercase lookup of the demo symbol shares its
uppercase-keyed cache entry with the uppercase lookup. -/
theorem symbol_lookup_case_insensitive_witness :
    get_symbol_info [demoSymbol] [] "btcusdt" =
      (.ok demoRules, [("BTCUSDT", demoRules)], 1) ∧
    (get_symbol_info [demoSymbol] [] (pyUpper "btcusdt") =
        (.ok demoRules, [("BTCUSDT", demoRules)], 1) ∧
      get_symbol_info [demoSymbol] [("BTCUSDT", demoRules)] (pyUpper "btcusdt") =
        (.ok demoRules, [("BTCUSDT", demoRules)], 0) ∧
      List.lookup (pyUpper "btcusdt") [("BTCUSDT", demoRules)] = some demoRules ∧
      1 ≤ 1) :=
  ⟨get_symbol_info_demo_lower,
    symbol_lookup_case_insensitive _ _ _ _ _ _ get_symbol_info_demo_lower⟩

/-- Counterexample to C10 as frozen: for a symbol the exchange does not
list, the lowercase and uppercase lookups each issue a request (two in
total, not at most one). -/
theorem symbol_lookup_case_insensitive_counterexample :
    (get_symbol_info [] [] "eth").2.2 = 1 ∧
    (get_symbol_info [] ((get_symbol_info [] [] "eth").2.1) "ETH").2.2 = 1 ∧
    (get_symbol_info [] [] "eth").1 = .error .symbolNotFound :=
  ⟨rfl, rfl, rfl⟩

/-! ## Claim about the limit-order operation -/

/-- Claim C9: a limit order normalizes its quantity through the
quantity normalizer, submits with time-in-force `GTC` and the price
passed through unchanged (never checked against `pricePrecision`), and
maps the raw reply through the response mapper. -/
theorem limit_order_gateway (client : OrderParams → RawOrder)
    (exch : List ExchangeSymbol) (cache : Cache) (symbol side : String)
    (quantity price : ℚ) (info : TradingRules) (cache2 : Cache) (n : ℕ) (fq : String)
    (rec : OrderRecord)
    (hinfo : get_symbol_info exch cache symbol = (.ok info, cache2, n))
    (hfq : normalizeQuantity info quantity = .ok fq)
    (hrec : format_order_response (client
      ⟨pyUpper symbol, pyUpper side, "LIMIT", some "GTC", some fq, some price⟩) =
        some rec) :
    place_limit_order client exch cache symbol side quantity price =
      (.ok rec, cache2, n + 1) := by
  rw [place_limit_order, validate_and_format_quantity, hinfo]
  dsimp only
  rw [hfq]
  dsimp only
  rw [hrec]

/-- A stub exchange endpoint echoing a fixed limit-order reply. -/
def demoClient : OrderParams → RawOrder :=
  fun _ => ⟨5, "BTCUSDT", "BUY", "LIMIT", "0.003", some "50000", "NEW"⟩

/-- Witness for C9 against the stub endpoint. -/
theorem limit_order_gateway_witness :
    get_symbol_info [demoSymbol] [] "BTCUSDT" =
      (.ok demoRules, [("BTCUSDT", demoRules)], 1) ∧
    normalizeQuantity demoRules (35/10000) = .ok "0.003" ∧
    place_limit_order demoClient [demoSymbol] [] "BTCUSDT" "BUY" (35/10000) 50000 =
      (.ok ⟨5, "BTCUSDT", "BUY", "LIMIT", 3/1000, 50000, "NEW"⟩,
        [("BTCUSDT", demoRules)], 1 + 1) := by
  refine ⟨get_symbol_info_demo, normalize_demo_eval, ?_⟩
  have hrec : format_order_response (demoClient
      ⟨pyUpper "BTCUSDT", pyUpper "BUY", "LIMIT", some "GTC", some "0.003",
        some 50000⟩) = some ⟨5, "BTCUSDT", "BUY", "LIMIT", 3/1000, 50000, "NEW"⟩ := by
    rw [show demoClient ⟨pyUpper "BTCUSDT", pyUpper "BUY", "LIMIT", some "GTC",
        some "0.003", some 50000⟩ =
      (⟨5, "BTCUSDT", "BUY", "LIMIT", "0.003", some "50000", "NEW"⟩ : RawOrder) from rfl]
    rw [format_order_response]
    rw [show parseDec "0.003" = some (3/1000 : ℚ) from
      parseDec_eval (z := 3) (p := 3) (by decide) (by norm_num)]
    dsimp only
    rw [show parseDec "50000" = some (50000 : ℚ) from
      parseDec_eval (z := 50000) (p := 0) (by decide) (by norm_num)]
  exact limit_order_gateway demoClient [demoSymbol] [] "BTCUSDT" "BUY" (35/10000) 50000
    demoRules [("BTCUSDT", demoRules)] 1 "0.003"
    ⟨5, "BTCUSDT", "BUY", "LIMIT", 3/1000, 50000, "NEW"⟩ get_symbol_info_demo
    normalize_demo_eval hrec

/-- Witness for C8 at the concrete snapshot. -/
theorem balance_summary_totals_and_filter_witness :
    (get_account_balance negAccount).total_margin_balance =
        negAccount.totalMarginBalance ∧
    (get_account_balance negAccount).available_balance = negAccount.availableBalance ∧
    (get_account_balance negAccount).total_unrealized_pnl =
        negAccount.totalUnrealizedProfit ∧
    ∀ b : AssetBalance, b ∈ (get_account_balance negAccount).balances ↔
      b ∈ negAccount.assets ∧ 0 < b.walletBalance :=
  balance_summary_totals_and_filter negAccount
